import Mathlib

/-!
Verification of the reddit-audio-recorder core: the recording session state
machine, finalization pipeline and PCM WAV encoder.

The definitions below are a shallow embedding of the TypeScript sources:
  * `encodeAudioBufferToWavBlob` embeds `src/utils/audioUtils.ts` (the hook's
    `convertToWav` in `src/hooks/useAudioRecorder.ts` writes the identical
    byte layout for header and samples).
  * `Session`, `finalizeRecording`, `startRecording`, `pauseRecording`,
    `playAudio`, `downloadRecording`, `clearRecording` and the data-available
    handler embed `src/hooks/useAudioRecorder.ts`.
  * Event enabledness mirrors which handler each UI control invokes and when
    the control is shown/enabled (`AudioRecorder` component) plus the guards
    inside the handlers themselves.

Platform collaborators (decoder, capture device, player, URL store) are
modelled as oracles: the decoder is an arbitrary function
`List Nat → Option AudioBuffer` supplied with each event that decodes,
fragment contents are arbitrary byte lists supplied by the device event,
and `URL.createObjectURL` is a fresh-handle counter.
-/

namespace AudioRecorder

/-- Bytes of a Blob, each in `[0, 256)`. -/
abbrev BlobBytes := List Nat

/-- A decoded sample buffer as returned by `AudioContext.decodeAudioData`:
channel count, frame count, sample rate, and a sample lookup
(channel index → frame index → float sample, modelled as a rational). -/
structure AudioBuffer where
  numberOfChannels : Nat
  frameCount : Nat
  sampleRate : Nat
  getSample : Nat → Nat → ℚ

/-- `buffer.duration` of the web audio API: frames divided by sample rate. -/
def AudioBuffer.duration (b : AudioBuffer) : ℚ :=
  (b.frameCount : ℚ) / (b.sampleRate : ℚ)

/-- The platform decoder `decodeAudioData`, as an oracle: it may succeed with
a buffer or fail (`DecodeError`). -/
abbrev Decoder := BlobBytes → Option AudioBuffer

/-! ## PCM encoder (`src/utils/audioUtils.ts`, `encodeAudioBufferToWavBlob`) -/

/-- Little-endian bytes of `view.setUint16(_, n, true)`. -/
def u16le (n : Nat) : List Nat := [n % 256, n / 256 % 256]

/-- Little-endian bytes of `view.setUint32(_, n, true)`. -/
def u32le (n : Nat) : List Nat :=
  [n % 256, n / 256 % 256, n / 65536 % 256, n / 16777216 % 256]

/-- JavaScript number-to-integer conversion used by `DataView.setInt16`:
truncation toward zero. -/
def ratTrunc (q : ℚ) : Int := if q < 0 then ⌈q⌉ else ⌊q⌋

/-- Bytes written by `view.setInt16(_, i, true)`: the value modulo 2^16,
little-endian. -/
def i16le (i : Int) : List Nat := u16le (Int.toNat (i % 65536))

/-- `Math.max(-1, Math.min(1, sample))` — clamp to `[-1, 1]`. -/
def clamp (q : ℚ) : ℚ := max (-1) (min 1 q)

/-- `sample < 0 ? sample * 0x8000 : sample * 0x7FFF`. -/
def scaleSample (q : ℚ) : ℚ := if q < 0 then q * 32768 else q * 32767

/-- The complete per-sample pipeline of the encoder inner loop: clamp, scale,
convert to the integer stored by `setInt16`. -/
def sampleToInt16 (q : ℚ) : Int := ratTrunc (scaleSample (clamp q))

/-- The 44-byte RIFF/WAVE header written by `encodeAudioBufferToWavBlob`
(byte-for-byte: the four-character tags are written as their ASCII codes). -/
def wavHeader (numOfChan frameCount sampleRate : Nat) : List Nat :=
  [0x52, 0x49, 0x46, 0x46]                               -- 'RIFF'
  ++ u32le (frameCount * numOfChan * 2 + 44 - 8)         -- file length - 8
  ++ [0x57, 0x41, 0x56, 0x45]                            -- 'WAVE'
  ++ [0x66, 0x6d, 0x74, 0x20]                            -- 'fmt '
  ++ u32le 16                                            -- subchunk1size
  ++ u16le 1                                             -- PCM format
  ++ u16le numOfChan
  ++ u32le sampleRate
  ++ u32le (sampleRate * 2 * numOfChan)                  -- byte rate
  ++ u16le (numOfChan * 2)                               -- block align
  ++ u16le 16                                            -- bits per sample
  ++ [0x64, 0x61, 0x74, 0x61]                            -- 'data'
  ++ u32le (frameCount * numOfChan * 2)                  -- data size

/-- One pass of the inner channel loop of the encoder: the two-byte groups
written for frame `i`, one per channel in channel order. -/
def frameGroup (buf : AudioBuffer) (i : Nat) : List (List Nat) :=
  (List.range buf.numberOfChannels).map fun chan =>
    i16le (sampleToInt16 (buf.getSample chan i))

/-- The interleaved sample area: outer loop over frames, inner loop over
channels, two bytes per sample (`audioUtils.ts` lines 45–52). -/
def pcmGroups (buf : AudioBuffer) : List (List Nat) :=
  (List.range buf.frameCount).flatMap (frameGroup buf)

/-- `encodeAudioBufferToWavBlob`: header followed by interleaved 16-bit PCM. -/
def encodeAudioBufferToWavBlob (buf : AudioBuffer) : BlobBytes :=
  wavHeader buf.numberOfChannels buf.frameCount buf.sampleRate
    ++ (pcmGroups buf).flatten

theorem wavHeader_length (c f r : Nat) : (wavHeader c f r).length = 44 := by
  simp [wavHeader, u16le, u32le]

theorem flatten_length_const {α : Type} {L : List (List α)} {c : Nat}
    (h : ∀ x ∈ L, x.length = c) : L.flatten.length = L.length * c := by
  induction L with
  | nil => simp
  | cons x L ih =>
    simp only [List.flatten_cons, List.length_append, List.length_cons]
    rw [h x (List.mem_cons_self x L), ih fun y hy => h y (List.mem_cons_of_mem x hy)]
    ring

theorem flatten_drop_const {α : Type} {c : Nat} :
    ∀ (L : List (List α)), (∀ x ∈ L, x.length = c) → ∀ j, j < L.length →
      L.flatten.drop (j * c) = L.getD j [] ++ (L.drop (j + 1)).flatten := by
  intro L
  induction L with
  | nil => intro _ j hj; simp at hj
  | cons x L ih =>
    intro h j hj
    cases j with
    | zero => simp
    | succ j =>
      have hx : x.length = c := h x (List.mem_cons_self x L)
      have hL : ∀ y ∈ L, y.length = c := fun y hy => h y (List.mem_cons_of_mem x hy)
      have hjL : j < L.length := by simpa using hj
      simp only [List.flatten_cons, List.getD_cons_succ, List.drop_succ_cons]
      rw [Nat.succ_mul, Nat.add_comm, ← hx, List.drop_append, hx, ih hL j hjL]

theorem frameGroup_length (buf : AudioBuffer) (i : Nat) :
    (frameGroup buf i).length = buf.numberOfChannels := by
  simp [frameGroup]

theorem pcmGroups_mem_length (buf : AudioBuffer) :
    ∀ x ∈ pcmGroups buf, x.length = 2 := by
  intro x hx
  simp only [pcmGroups, frameGroup, List.mem_flatMap, List.mem_map, List.mem_range] at hx
  obtain ⟨i, _, chan, _, rfl⟩ := hx
  simp [i16le, u16le]

theorem pcmGroups_eq_flatten (buf : AudioBuffer) :
    pcmGroups buf = ((List.range buf.frameCount).map (frameGroup buf)).flatten :=
  List.flatMap_def _ _

theorem pcmGroups_length (buf : AudioBuffer) :
    (pcmGroups buf).length = buf.frameCount * buf.numberOfChannels := by
  rw [pcmGroups_eq_flatten,
    flatten_length_const (c := buf.numberOfChannels) (by
      intro x hx
      simp only [List.mem_map, List.mem_range] at hx
      obtain ⟨k, _, rfl⟩ := hx
      exact frameGroup_length buf k)]
  simp

theorem pcmGroups_drop (buf : AudioBuffer) (i : Nat) (hi : i < buf.frameCount) :
    ∃ rest, (pcmGroups buf).drop (i * buf.numberOfChannels)
      = frameGroup buf i ++ rest := by
  rw [pcmGroups_eq_flatten]
  refine ⟨(((List.range buf.frameCount).map (frameGroup buf)).drop (i + 1)).flatten, ?_⟩
  rw [flatten_drop_const (c := buf.numberOfChannels) _ (by
      intro x hx
      simp only [List.mem_map, List.mem_range] at hx
      obtain ⟨k, _, rfl⟩ := hx
      exact frameGroup_length buf k) i (by simpa using hi)]
  congr 1
  rw [List.getD_eq_getElem?_getD, List.getElem?_map, List.getElem?_range hi]
  rfl

theorem pcmGroups_getD (buf : AudioBuffer) (i chan : Nat)
    (hi : i < buf.frameCount) (hchan : chan < buf.numberOfChannels) :
    (pcmGroups buf).getD (i * buf.numberOfChannels + chan) []
      = i16le (sampleToInt16 (buf.getSample chan i)) := by
  obtain ⟨rest, hdrop⟩ := pcmGroups_drop buf i hi
  rw [List.getD_eq_getElem?_getD, ← List.getElem?_drop, hdrop,
    List.getElem?_append_left (by rw [frameGroup_length]; exact hchan),
    frameGroup, List.getElem?_map, List.getElem?_range hchan]
  rfl

theorem clamp_mem (q : ℚ) : -1 ≤ clamp q ∧ clamp q ≤ 1 := by
  constructor
  · exact le_max_left _ _
  · exact max_le (by norm_num) (min_le_left _ _)

theorem sampleToInt16_range (q : ℚ) :
    -32768 ≤ sampleToInt16 q ∧ sampleToInt16 q ≤ 32767 := by
  obtain ⟨h1, h2⟩ := clamp_mem q
  unfold sampleToInt16 ratTrunc scaleSample
  by_cases h : clamp q < 0
  · rw [if_pos h, if_pos (by nlinarith : clamp q * 32768 < 0)]
    constructor
    · have hle : ((-32768 : ℤ) : ℚ) ≤ clamp q * 32768 := by push_cast; nlinarith
      calc (-32768 : ℤ) = ⌈((-32768 : ℤ) : ℚ)⌉ := (Int.ceil_intCast _).symm
        _ ≤ ⌈clamp q * 32768⌉ := Int.ceil_mono hle
    · have hle : clamp q * 32768 ≤ 0 := by nlinarith
      have h0 : ⌈clamp q * 32768⌉ ≤ ⌈(0 : ℚ)⌉ := Int.ceil_mono hle
      simp only [Int.ceil_zero] at h0
      omega
  · push_neg at h
    have hnn : (0 : ℚ) ≤ clamp q * 32767 := mul_nonneg h (by norm_num)
    rw [if_neg (not_lt.mpr h), if_neg (not_lt.mpr hnn)]
    constructor
    · have := Int.floor_nonneg.mpr hnn
      omega
    · have hle : clamp q * 32767 ≤ ((32767 : ℤ) : ℚ) := by push_cast; nlinarith
      calc ⌊clamp q * 32767⌋ ≤ ⌊((32767 : ℤ) : ℚ)⌋ := Int.floor_mono hle
        _ = 32767 := Int.floor_intCast _

/-- **C5** — For every decoded sample buffer with `frameCount` frames and
`channelCount` channels, the encoder's output is exactly
`44 + frameCount * channelCount * 2` bytes long. -/
theorem encodeWav_length (buf : AudioBuffer) :
    (encodeAudioBufferToWavBlob buf).length
      = 44 + buf.frameCount * buf.numberOfChannels * 2 := by
  rw [encodeAudioBufferToWavBlob, List.length_append, wavHeader_length,
    flatten_length_const (pcmGroups_mem_length buf), pcmGroups_length]

/-- **C6** — For every frame `i` and channel `chan` of any decoded sample
buffer, the encoder emits, at byte offset `44 + (i * channelCount + chan) * 2`
of its output, the two little-endian bytes of the signed 16-bit integer
obtained by first clamping the float sample to `[-1, 1]` and then scaling the
clamped value by 32768 when negative and by 32767 when non-negative; that
integer always lies in the signed 16-bit range `[-32768, 32767]`. -/
theorem encodeWav_sample_bytes (buf : AudioBuffer) (i chan : Nat)
    (hi : i < buf.frameCount) (hchan : chan < buf.numberOfChannels) :
    ((encodeAudioBufferToWavBlob buf).drop
        (44 + (i * buf.numberOfChannels + chan) * 2)).take 2
      = i16le (ratTrunc (scaleSample (clamp (buf.getSample chan i))))
    ∧ -32768 ≤ ratTrunc (scaleSample (clamp (buf.getSample chan i)))
    ∧ ratTrunc (scaleSample (clamp (buf.getSample chan i))) ≤ 32767 := by
  have hrange := sampleToInt16_range (buf.getSample chan i)
  refine ⟨?_, hrange.1, hrange.2⟩
  have hj : i * buf.numberOfChannels + chan < (pcmGroups buf).length := by
    rw [pcmGroups_length]
    calc i * buf.numberOfChannels + chan
        < i * buf.numberOfChannels + buf.numberOfChannels := by omega
      _ = (i + 1) * buf.numberOfChannels := by ring
      _ ≤ buf.frameCount * buf.numberOfChannels :=
          Nat.mul_le_mul_right _ hi
  have h44 : (wavHeader buf.numberOfChannels buf.frameCount buf.sampleRate).length = 44 :=
    wavHeader_length _ _ _
  rw [encodeAudioBufferToWavBlob, ← h44, List.drop_append,
    flatten_drop_const _ (pcmGroups_mem_length buf) _ hj,
    pcmGroups_getD buf i chan hi hchan,
    List.take_left' (by simp [i16le, u16le])]
  rfl

/-- Witness for `encodeWav_sample_bytes` at a concrete stereo two-frame
buffer, frame 1, channel 1. -/
theorem encodeWav_sample_bytes_witness :
    (1 < (2 : Nat) ∧ 1 < (2 : Nat)) ∧
    ((encodeAudioBufferToWavBlob
        ⟨2, 2, 48000, fun ch _ => if ch = 0 then -(3/4) else 1/2⟩).drop
          (44 + (1 * 2 + 1) * 2)).take 2
        = i16le (ratTrunc (scaleSample (clamp (1/2))))
      ∧ -32768 ≤ ratTrunc (scaleSample (clamp ((1 : ℚ)/2)))
      ∧ ratTrunc (scaleSample (clamp ((1 : ℚ)/2))) ≤ 32767 := by
  refine ⟨⟨by decide, by decide⟩, ?_⟩
  have h := encodeWav_sample_bytes
    ⟨2, 2, 48000, fun ch _ => if ch = 0 then -(3/4) else 1/2⟩ 1 1
    (by decide) (by decide)
  simpa using h

/-! ## Session state (`src/hooks/useAudioRecorder.ts`)

State hooks, refs and the scheduled callbacks of the hook. `audioUrl` holds
the handle from `URL.createObjectURL`, modelled as a fresh counter value
(`nextUrl` is the allocator). `recorderActive` is
`mediaRecorderRef.current.state === 'recording'`; `timerOn` is whether the
elapsed-time interval is installed. `pendingPauseFinalize` models the
`setTimeout(finalizeRecording, 50)` scheduled by `pauseRecording`, and
`pendingDownloadClear` the `setTimeout(clearRecording, 2000)` scheduled by
`downloadRecording`; neither timeout is ever cancelled by the code, so the
flags stay set until the callback fires.

`pendingStopFlushes` counts final `dataavailable` tasks still queued by
`mediaRecorder.stop()`. Stopping a recorder always fires one last
(possibly empty) `dataavailable` before `onstop`. `pauseRecording` awaits
that stop completion, so its final flush is delivered before the pause
transition finishes — represented by `dataAvailable` events occurring while
the recorder is active, before the pause event. `clearRecording`, in
contrast, calls `stop()` on an active recorder without awaiting and resets
the fields synchronously, so its final flush lands only afterwards: each
such un-awaited stop increments `pendingStopFlushes`, and a `stopFlush`
event delivers the buffered fragment later, through the ordinary
`ondataavailable` handler. -/

/-- `RecorderState` of the hook. -/
inductive RecorderState where
  | idle
  | recording
  | paused
  | playing
  | downloading
deriving DecidableEq, Repr

/-- The mutable state of one recorder hook instance. -/
structure Session where
  state : RecorderState
  duration : Nat
  playbackTime : ℚ
  hasPermission : Option Bool
  audioBlob : Option BlobBytes
  audioUrl : Option Nat
  chunks : List BlobBytes
  pausedTime : Nat
  totalRecordingDuration : ℚ
  isFinalized : Bool
  recorderActive : Bool
  timerOn : Bool
  pendingPauseFinalize : Bool
  pendingDownloadClear : Bool
  pendingStopFlushes : Nat
  nextUrl : Nat
deriving DecidableEq, Repr

/-- Hook state at construction: `useState('idle')`, zeros, empty refs. -/
def initialSession : Session where
  state := .idle
  duration := 0
  playbackTime := 0
  hasPermission := none
  audioBlob := none
  audioUrl := none
  chunks := []
  pausedTime := 0
  totalRecordingDuration := 0
  isFinalized := false
  recorderActive := false
  timerOn := false
  pendingPauseFinalize := false
  pendingDownloadClear := false
  pendingStopFlushes := 0
  nextUrl := 0

/-- `new Blob(chunksRef.current)` — concatenation of the fragments. -/
def mergeChunks (cs : List BlobBytes) : BlobBytes := cs.flatten

/-- `convertToWav` (lines 112–163): decode the merged capture bytes and
re-encode them as WAV; on any failure return the original blob unchanged. -/
def convertToWav (dec : Decoder) (b : BlobBytes) : BlobBytes :=
  match dec b with
  | some buf => encodeAudioBufferToWavBlob buf
  | none => b

/-- `finalizeRecording` (lines 165–215). Returns the updated session and the
value returned to the caller (`{blob, url}` or `null`).
Early-out when already finalized or no chunks; otherwise merge, convert,
publish a fresh URL handle, and reconcile the duration: the decoded duration
of the converted blob when decoding succeeds, the wall-clock `duration`
otherwise. Every non-early path sets `isFinalized` (lines 194, 199, 207). -/
def finalizeRecording (dec : Decoder) (s : Session) :
    Session × Option (BlobBytes × Nat) :=
  if s.isFinalized = true ∨ s.chunks = [] then (s, none)
  else
    let webmBlob := mergeChunks s.chunks
    let wavBlob := convertToWav dec webmBlob
    let url := s.nextUrl
    let newDuration : ℚ :=
      match dec wavBlob with
      | some buffer => buffer.duration
      | none => (s.duration : ℚ)
    ({ s with totalRecordingDuration := newDuration
            , isFinalized := true
            , audioBlob := some wavBlob
            , audioUrl := some url
            , nextUrl := s.nextUrl + 1 }, some (wavBlob, url))

/-- `clearRecording` (lines 217–247): stop timers, recorder and player,
revoke the URL, and reset every field to its idle value. The two scheduled
timeouts are not cancelled, so the pending flags are left as they are; and
`mediaRecorder.stop()` — called when the recorder is not inactive — is not
awaited, so its final `dataavailable` flush stays queued and is delivered
only after this synchronous reset (one more pending stop flush). -/
def clearRecording (s : Session) : Session :=
  { s with state := .idle
         , duration := 0
         , playbackTime := 0
         , audioBlob := none
         , audioUrl := none
         , chunks := []
         , pausedTime := 0
         , totalRecordingDuration := 0
         , isFinalized := false
         , recorderActive := false
         , timerOn := false
         , pendingStopFlushes :=
             s.pendingStopFlushes + (if s.recorderActive then 1 else 0) }

/-- `startRecording` success path (lines 249–331), also reached through
`resumeRecording` (lines 377–384). Fresh start (`state === 'idle'`) resets
fragments, timers and the artifact; otherwise only `isFinalized` is forced
false. Then the recorder and timer start, the state becomes `recording`, and
a positive `pausedTimeRef` restores the accumulated duration. -/
def startRecording (s : Session) : Session :=
  let s1 :=
    if s.state = .idle then
      { s with chunks := []
             , pausedTime := 0
             , duration := 0
             , totalRecordingDuration := 0
             , audioBlob := none
             , audioUrl := none
             , isFinalized := false }
    else
      { s with isFinalized := false }
  let s2 := { s1 with recorderActive := true, state := .recording }
  let s3 := if s2.pausedTime > 0 then { s2 with duration := s2.pausedTime } else s2
  { s3 with timerOn := true }

/-- `mediaRecorder.ondataavailable` (lines 301–307): append the fragment to
`chunksRef` only when its size is positive. Nothing else is touched. -/
def ondataavailable (frag : BlobBytes) (s : Session) : Session :=
  if frag.length > 0 then { s with chunks := s.chunks ++ [frag] } else s

/-- `pauseRecording` (lines 333–375): stop the recorder (awaiting its stop
completion), stop the timer, snapshot the accumulated duration, enter
`paused`, and — when chunks exist — schedule the deferred finalization. -/
def pauseRecording (s : Session) : Session :=
  { s with recorderActive := false
         , timerOn := false
         , pausedTime := s.duration
         , state := .paused
         , pendingPauseFinalize := !s.chunks.isEmpty }

/-- The deferred `finalizeRecording` scheduled by `pauseRecording` firing
(line 370). The result is discarded; the timeout fires exactly once. -/
def pauseFinalizeFires (dec : Decoder) (s : Session) : Session :=
  { (finalizeRecording dec s).1 with pendingPauseFinalize := false }

/-- `playAudio` (lines 386–438): finalize first when chunks exist and the
artifact is missing or stale, then — if a URL is available — start playback.
Loading the element fires `onloadedmetadata`, resetting `playbackTime`. -/
def playAudio (dec : Decoder) (s : Session) : Session :=
  let s1 :=
    if s.chunks ≠ [] ∧ (s.audioBlob = none ∨ s.audioUrl = none ∨ s.isFinalized = false)
    then (finalizeRecording dec s).1
    else s
  match s1.audioUrl with
  | some _ => { s1 with state := .playing, playbackTime := 0 }
  | none => s1

/-- `downloadRecording` (lines 452–474): finalize first when chunks exist and
the artifact is missing or stale; if a blob is then available, enter
`downloading` and schedule the delayed teardown; otherwise return `null`
without touching the state. Note: no session-state guard of its own. -/
def downloadRecording (dec : Decoder) (s : Session) : Session × Option BlobBytes :=
  let (s1, res) :=
    if s.chunks ≠ [] ∧ (s.audioBlob = none ∨ s.audioUrl = none ∨ s.isFinalized = false)
    then finalizeRecording dec s
    else (s, none)
  let currentBlob :=
    match res with
    | some (b, _) => some b
    | none => s1.audioBlob
  match currentBlob with
  | some b => ({ s1 with state := .downloading, pendingDownloadClear := true }, some b)
  | none => (s1, none)

/-- The `setTimeout(clearRecording, 2000)` scheduled by `downloadRecording`
firing (lines 468–470). -/
def downloadClearFires (s : Session) : Session :=
  { clearRecording s with pendingDownloadClear := false }

/-! ## Events and the transition system

An event is one invocation of a hook handler or one platform callback.
Handlers that consult the platform decoder carry it as an oracle; the
device fragment carries its bytes. Enabledness combines the guard inside the
handler with when the `AudioRecorder` component can invoke it:
  * record button only in `idle`; resume and play buttons only in `paused`;
    the playback pause button only in `playing`;
  * the delete button is disabled in `idle` and hidden in `downloading`;
  * the submit (download) button is disabled in `idle`, `recording` and
    `downloading`;
  * device data events occur while the recorder is active, timer ticks while
    the interval is installed, player callbacks while playing, and scheduled
    timeouts once their flag is pending;
  * a `stopFlush` event — the final `dataavailable` task of an un-awaited
    `mediaRecorder.stop()` from `clearRecording` — can occur while such a
    flush is pending, in whatever state the session has reached by then. -/

/-- One atomic event of the composed system. -/
inductive Event where
  | start
  | resume
  | startFail
  | permissionResult (granted : Bool)
  | dataAvailable (frag : BlobBytes)
  | tick
  | pauseRec
  | pauseFinalizeTimeout (dec : Decoder)
  | play (dec : Decoder)
  | pausePlay
  | playbackEnded
  | playbackPoll (t : ℚ)
  | delete
  | download (dec : Decoder)
  | downloadClearTimeout
  | stopFlush (frag : BlobBytes)

/-- When an event can occur, as a boolean guard. -/
def enabled : Event → Session → Bool
  | .start, s => s.state = .idle
  | .resume, s => s.state = .paused
  | .startFail, s => s.state = .idle || s.state = .paused
  | .permissionResult _, _ => true
  | .dataAvailable _, s => s.recorderActive
  | .tick, s => s.timerOn
  | .pauseRec, s => s.state = .recording && s.recorderActive
  | .pauseFinalizeTimeout _, s => s.pendingPauseFinalize
  | .play _, s => s.state = .paused
  | .pausePlay, s => s.state = .playing
  | .playbackEnded, s => s.state = .playing
  | .playbackPoll _, s => s.state = .playing
  | .delete, s => s.state = .recording || s.state = .paused || s.state = .playing
  | .download _, s => s.state = .paused || s.state = .playing
  | .downloadClearTimeout, s => s.pendingDownloadClear
  | .stopFlush _, s => 0 < s.pendingStopFlushes

/-- Effect of each event on the session. -/
def applyEvent : Event → Session → Session
  | .start, s => startRecording s
  | .resume, s => startRecording s
  | .startFail, s => { s with hasPermission := some false }
  | .permissionResult g, s => { s with hasPermission := some g }
  | .dataAvailable frag, s => ondataavailable frag s
  | .tick, s => { s with duration := s.duration + 1 }
  | .pauseRec, s => pauseRecording s
  | .pauseFinalizeTimeout dec, s => pauseFinalizeFires dec s
  | .play dec, s => playAudio dec s
  | .pausePlay, s => { s with state := .paused }
  | .playbackEnded, s => { s with playbackTime := s.totalRecordingDuration, state := .paused }
  | .playbackPoll t, s => { s with playbackTime := t }
  | .delete, s => clearRecording s
  | .download dec, s => (downloadRecording dec s).1
  | .downloadClearTimeout, s => downloadClearFires s
  | .stopFlush frag, s =>
      { ondataavailable frag s with pendingStopFlushes := s.pendingStopFlushes - 1 }

/-- Sessions reachable from construction by enabled events. -/
inductive Reachable : Session → Prop where
  | init : Reachable initialSession
  | step {s : Session} {e : Event} :
      Reachable s → enabled e s = true → Reachable (applyEvent e s)

/-- Run a list of events in order. -/
def runTrace (es : List Event) (s : Session) : Session :=
  es.foldl (fun acc e => applyEvent e acc) s

/-- Every event of the list is enabled when its turn comes. -/
def traceEnabled (s : Session) : List Event → Bool
  | [] => true
  | e :: es => enabled e s && traceEnabled (applyEvent e s) es

theorem runTrace_reachable {s : Session} (hs : Reachable s) :
    ∀ es, traceEnabled s es = true → Reachable (runTrace es s) := by
  intro es
  induction es generalizing s with
  | nil => intro _; exact hs
  | cons e es ih =>
    intro h
    rw [traceEnabled, Bool.and_eq_true] at h
    exact ih (Reachable.step hs h.1) h.2

/-! ## Invariants of reachable sessions -/

/-- Invariant maintained by every reachable session: idle sessions have a
zero elapsed duration; while paused or playing the pause snapshot equals the
accumulated duration; stored fragments are non-empty; a valid finalization
has published a blob and a URL handle; and the timer and recorder run only
while recording. (Idle sessions are *not* guaranteed an empty fragment list:
the un-awaited post-delete stop flush can append one after the reset.) -/
structure SessionInv (s : Session) : Prop where
  idle_duration : s.state = .idle → s.duration = 0
  paused_time : s.state = .paused ∨ s.state = .playing → s.pausedTime = s.duration
  chunks_pos : ∀ c ∈ s.chunks, 0 < c.length
  finalized_blob : s.isFinalized = true → s.audioBlob ≠ none ∧ s.audioUrl ≠ none
  timer_rec : s.timerOn = true → s.state = .recording
  active_rec : s.recorderActive = true → s.state = .recording

theorem finalizeRecording_preserves (dec : Decoder) (s : Session) :
    ((finalizeRecording dec s).1).state = s.state
    ∧ ((finalizeRecording dec s).1).duration = s.duration
    ∧ ((finalizeRecording dec s).1).pausedTime = s.pausedTime
    ∧ ((finalizeRecording dec s).1).chunks = s.chunks
    ∧ ((finalizeRecording dec s).1).recorderActive = s.recorderActive
    ∧ ((finalizeRecording dec s).1).timerOn = s.timerOn
    ∧ ((finalizeRecording dec s).1).playbackTime = s.playbackTime
    ∧ ((finalizeRecording dec s).1).pendingPauseFinalize = s.pendingPauseFinalize
    ∧ ((finalizeRecording dec s).1).pendingDownloadClear = s.pendingDownloadClear := by
  unfold finalizeRecording
  split <;> simp

theorem sessionInv_finalizeRecording {s : Session} (h : SessionInv s) (dec : Decoder) :
    SessionInv (finalizeRecording dec s).1 := by
  by_cases hc : s.isFinalized = true ∨ s.chunks = []
  · simpa only [finalizeRecording, if_pos hc] using h
  · have hch : ¬ s.chunks = [] := fun hcc => hc (Or.inr hcc)
    simp only [finalizeRecording, if_neg hc]
    exact {
      idle_duration := h.idle_duration
      paused_time := h.paused_time
      chunks_pos := h.chunks_pos
      finalized_blob := fun _ => by simp
      timer_rec := h.timer_rec
      active_rec := h.active_rec }

theorem sessionInv_step {s : Session} {e : Event}
    (h : SessionInv s) (he : enabled e s = true) : SessionInv (applyEvent e s) := by
  cases e with
  | start =>
    have hidle : s.state = .idle := by simpa [enabled] using he
    simp only [applyEvent, startRecording, if_pos hidle]
    split
    case isTrue hpt =>
      exact absurd (show (0 : Nat) > 0 from hpt) (by decide)
    case isFalse =>
      exact {
        idle_duration := fun hc => absurd (show RecorderState.recording = .idle from hc) (by decide)
        paused_time := fun hc => by
          rcases hc with hc | hc <;>
            exact absurd (show RecorderState.recording = _ from hc) (by decide)
        chunks_pos := fun c hc => absurd hc (List.not_mem_nil c)
        finalized_blob := fun hf => absurd (show false = true from hf) Bool.false_ne_true
        timer_rec := fun _ => rfl
        active_rec := fun _ => rfl }
  | resume =>
    have hpaused : s.state = .paused := by simpa [enabled] using he
    have hne : ¬ s.state = .idle := by rw [hpaused]; decide
    simp only [applyEvent, startRecording, if_neg hne]
    split
    case isTrue =>
      exact {
        idle_duration := fun hc => absurd (show RecorderState.recording = .idle from hc) (by decide)
        paused_time := fun hc => by
          rcases hc with hc | hc <;>
            exact absurd (show RecorderState.recording = _ from hc) (by decide)
        chunks_pos := h.chunks_pos
        finalized_blob := fun hf => absurd (show false = true from hf) Bool.false_ne_true
        timer_rec := fun _ => rfl
        active_rec := fun _ => rfl }
    case isFalse =>
      exact {
        idle_duration := fun hc => absurd (show RecorderState.recording = .idle from hc) (by decide)
        paused_time := fun hc => by
          rcases hc with hc | hc <;>
            exact absurd (show RecorderState.recording = _ from hc) (by decide)
        chunks_pos := h.chunks_pos
        finalized_blob := fun hf => absurd (show false = true from hf) Bool.false_ne_true
        timer_rec := fun _ => rfl
        active_rec := fun _ => rfl }
  | startFail =>
    exact ⟨h.idle_duration, h.paused_time, h.chunks_pos, h.finalized_blob,
      h.timer_rec, h.active_rec⟩
  | permissionResult g =>
    exact ⟨h.idle_duration, h.paused_time, h.chunks_pos, h.finalized_blob,
      h.timer_rec, h.active_rec⟩
  | dataAvailable frag =>
    have hact : s.recorderActive = true := by simpa [enabled] using he
    have hrec : s.state = .recording := h.active_rec hact
    simp only [applyEvent, ondataavailable]
    split
    case isTrue hlen =>
      exact {
        idle_duration := fun hc => by
          have h2 : s.state = RecorderState.idle := hc
          rw [hrec] at h2; cases h2
        paused_time := fun hc => by
          have h2 : s.state = RecorderState.paused ∨ s.state = RecorderState.playing := hc
          rcases h2 with h2 | h2 <;> (rw [hrec] at h2; cases h2)
        chunks_pos := fun c hc => by
          have h2 : c ∈ s.chunks ++ [frag] := hc
          rcases List.mem_append.mp h2 with hmem | hmem
          · exact h.chunks_pos c hmem
          · rw [List.mem_singleton.mp hmem]; omega
        finalized_blob := h.finalized_blob
        timer_rec := h.timer_rec
        active_rec := h.active_rec }
    case isFalse =>
      exact h
  | tick =>
    have htimer : s.timerOn = true := by simpa [enabled] using he
    have hrec : s.state = .recording := h.timer_rec htimer
    exact {
      idle_duration := fun hc => by
        have h2 : s.state = RecorderState.idle := hc
        rw [hrec] at h2; cases h2
      paused_time := fun hc => by
        have h2 : s.state = RecorderState.paused ∨ s.state = RecorderState.playing := hc
        rcases h2 with h2 | h2 <;> (rw [hrec] at h2; cases h2)
      chunks_pos := h.chunks_pos
      finalized_blob := h.finalized_blob
      timer_rec := fun _ => hrec
      active_rec := fun _ => hrec }
  | pauseRec =>
    exact {
      idle_duration := fun hc => absurd (show RecorderState.paused = .idle from hc) (by decide)
      paused_time := fun _ => rfl
      chunks_pos := h.chunks_pos
      finalized_blob := h.finalized_blob
      timer_rec := fun htr => absurd (show false = true from htr) Bool.false_ne_true
      active_rec := fun ha => absurd (show false = true from ha) Bool.false_ne_true }
  | pauseFinalizeTimeout dec =>
    have hinv := sessionInv_finalizeRecording h dec
    exact ⟨hinv.idle_duration, hinv.paused_time, hinv.chunks_pos, hinv.finalized_blob,
      hinv.timer_rec, hinv.active_rec⟩
  | play dec =>
    have hpaused : s.state = .paused := by simpa [enabled] using he
    have htimer : s.timerOn = false := by
      cases htO : s.timerOn
      · rfl
      · rw [h.timer_rec htO] at hpaused; cases hpaused
    have hact : s.recorderActive = false := by
      cases hA : s.recorderActive
      · rfl
      · rw [h.active_rec hA] at hpaused; cases hpaused
    simp only [applyEvent, playAudio]
    by_cases hcond : s.chunks ≠ [] ∧ (s.audioBlob = none ∨ s.audioUrl = none ∨ s.isFinalized = false)
    · rw [if_pos hcond]
      have hinv := sessionInv_finalizeRecording h dec
      obtain ⟨hst, hdur, hpt, hch, hra, hto, hpl, hpf, hdc⟩ := finalizeRecording_preserves dec s
      cases hurl : (finalizeRecording dec s).1.audioUrl with
      | some u =>
        exact {
          idle_duration := fun hc => absurd (show RecorderState.playing = .idle from hc) (by decide)
          paused_time := fun _ => show (finalizeRecording dec s).1.pausedTime
              = (finalizeRecording dec s).1.duration by
            rw [hpt, hdur]; exact h.paused_time (Or.inl hpaused)
          chunks_pos := hinv.chunks_pos
          finalized_blob := fun hf =>
            ⟨(hinv.finalized_blob
                (show (finalizeRecording dec s).1.isFinalized = true from hf)).1, by simp⟩
          timer_rec := fun htr => by
            have h2 : (finalizeRecording dec s).1.timerOn = true := htr
            rw [hto, htimer] at h2; cases h2
          active_rec := fun ha => by
            have h2 : (finalizeRecording dec s).1.recorderActive = true := ha
            rw [hra, hact] at h2; cases h2 }
      | none =>
        exact hinv
    · rw [if_neg hcond]
      cases hurl : s.audioUrl with
      | some u =>
        exact {
          idle_duration := fun hc => absurd (show RecorderState.playing = .idle from hc) (by decide)
          paused_time := fun _ => show s.pausedTime = s.duration
            from h.paused_time (Or.inl hpaused)
          chunks_pos := h.chunks_pos
          finalized_blob := fun hf =>
            ⟨(h.finalized_blob (show s.isFinalized = true from hf)).1, by simp⟩
          timer_rec := fun htr => by
            have h2 : s.timerOn = true := htr
            rw [htimer] at h2; cases h2
          active_rec := fun ha => by
            have h2 : s.recorderActive = true := ha
            rw [hact] at h2; cases h2 }
      | none =>
        exact h
  | pausePlay =>
    have hplaying : s.state = .playing := by simpa [enabled] using he
    have htimer : s.timerOn = false := by
      cases htO : s.timerOn
      · rfl
      · rw [h.timer_rec htO] at hplaying; cases hplaying
    have hact : s.recorderActive = false := by
      cases hA : s.recorderActive
      · rfl
      · rw [h.active_rec hA] at hplaying; cases hplaying
    exact {
      idle_duration := fun hc => absurd (show RecorderState.paused = .idle from hc) (by decide)
      paused_time := fun _ => show s.pausedTime = s.duration
        from h.paused_time (Or.inr hplaying)
      chunks_pos := h.chunks_pos
      finalized_blob := h.finalized_blob
      timer_rec := fun htr => by
        have h2 : s.timerOn = true := htr
        rw [htimer] at h2; cases h2
      active_rec := fun ha => by
        have h2 : s.recorderActive = true := ha
        rw [hact] at h2; cases h2 }
  | playbackEnded =>
    have hplaying : s.state = .playing := by simpa [enabled] using he
    have htimer : s.timerOn = false := by
      cases htO : s.timerOn
      · rfl
      · rw [h.timer_rec htO] at hplaying; cases hplaying
    have hact : s.recorderActive = false := by
      cases hA : s.recorderActive
      · rfl
      · rw [h.active_rec hA] at hplaying; cases hplaying
    exact {
      idle_duration := fun hc => absurd (show RecorderState.paused = .idle from hc) (by decide)
      paused_time := fun _ => show s.pausedTime = s.duration
        from h.paused_time (Or.inr hplaying)
      chunks_pos := h.chunks_pos
      finalized_blob := h.finalized_blob
      timer_rec := fun htr => by
        have h2 : s.timerOn = true := htr
        rw [htimer] at h2; cases h2
      active_rec := fun ha => by
        have h2 : s.recorderActive = true := ha
        rw [hact] at h2; cases h2 }
  | playbackPoll t =>
    exact ⟨h.idle_duration, h.paused_time, h.chunks_pos, h.finalized_blob,
      h.timer_rec, h.active_rec⟩
  | delete =>
    exact {
      idle_duration := fun _ => rfl
      paused_time := fun hc => by
        rcases hc with hc | hc <;>
          exact absurd (show RecorderState.idle = _ from hc) (by decide)
      chunks_pos := fun c hc => absurd hc (List.not_mem_nil c)
      finalized_blob := fun hf => absurd (show false = true from hf) Bool.false_ne_true
      timer_rec := fun htr => absurd (show false = true from htr) Bool.false_ne_true
      active_rec := fun ha => absurd (show false = true from ha) Bool.false_ne_true }
  | download dec =>
    have hpp : s.state = .paused ∨ s.state = .playing := by
      have h2 := he
      simp only [enabled, Bool.or_eq_true, decide_eq_true_eq] at h2
      exact h2
    have htimer : s.timerOn = false := by
      cases htO : s.timerOn
      · rfl
      · rcases hpp with hp | hp <;> (rw [h.timer_rec htO] at hp; cases hp)
    have hact : s.recorderActive = false := by
      cases hA : s.recorderActive
      · rfl
      · rcases hpp with hp | hp <;> (rw [h.active_rec hA] at hp; cases hp)
    simp only [applyEvent, downloadRecording]
    by_cases hcond : s.chunks ≠ [] ∧ (s.audioBlob = none ∨ s.audioUrl = none ∨ s.isFinalized = false)
    · rw [if_pos hcond]
      have hinv := sessionInv_finalizeRecording h dec
      obtain ⟨hst, hdur, hpt, hch, hra, hto, hpl, hpf, hdc⟩ := finalizeRecording_preserves dec s
      cases hfin : finalizeRecording dec s with
      | mk s1 res =>
        rw [hfin] at hinv hst hdur hpt hch hra hto hpl hpf hdc
        cases res with
        | some pair =>
          exact {
            idle_duration := fun hc => absurd (show RecorderState.downloading = .idle from hc) (by decide)
            paused_time := fun hc => by
              rcases hc with hc | hc <;>
                exact absurd (show RecorderState.downloading = _ from hc) (by decide)
            chunks_pos := hinv.chunks_pos
            finalized_blob := hinv.finalized_blob
            timer_rec := fun htr => by
              have h2 : s1.timerOn = true := htr
              rw [show s1.timerOn = s.timerOn from hto, htimer] at h2; cases h2
            active_rec := fun ha => by
              have h2 : s1.recorderActive = true := ha
              rw [show s1.recorderActive = s.recorderActive from hra, hact] at h2; cases h2 }
        | none =>
          cases hblob : s1.audioBlob with
          | some b =>
            exact {
              idle_duration := fun hc => absurd (show RecorderState.downloading = .idle from hc) (by decide)
              paused_time := fun hc => by
                rcases hc with hc | hc <;>
                  exact absurd (show RecorderState.downloading = _ from hc) (by decide)
              chunks_pos := hinv.chunks_pos
              finalized_blob := fun hf =>
                ⟨by simp, (hinv.finalized_blob (show s1.isFinalized = true from hf)).2⟩
              timer_rec := fun htr => by
                have h2 : s1.timerOn = true := htr
                rw [show s1.timerOn = s.timerOn from hto, htimer] at h2; cases h2
              active_rec := fun ha => by
                have h2 : s1.recorderActive = true := ha
                rw [show s1.recorderActive = s.recorderActive from hra, hact] at h2; cases h2 }
          | none =>
            exact hinv
    · rw [if_neg hcond]
      cases hblob : s.audioBlob with
      | some b =>
        exact {
          idle_duration := fun hc => absurd (show RecorderState.downloading = .idle from hc) (by decide)
          paused_time := fun hc => by
            rcases hc with hc | hc <;>
              exact absurd (show RecorderState.downloading = _ from hc) (by decide)
          chunks_pos := h.chunks_pos
          finalized_blob := fun hf =>
            ⟨by simp, (h.finalized_blob (show s.isFinalized = true from hf)).2⟩
          timer_rec := fun htr => by
            have h2 : s.timerOn = true := htr
            rw [htimer] at h2; cases h2
          active_rec := fun ha => by
            have h2 : s.recorderActive = true := ha
            rw [hact] at h2; cases h2 }
      | none =>
        exact h
  | downloadClearTimeout =>
    exact {
      idle_duration := fun _ => rfl
      paused_time := fun hc => by
        rcases hc with hc | hc <;>
          exact absurd (show RecorderState.idle = _ from hc) (by decide)
      chunks_pos := fun c hc => absurd hc (List.not_mem_nil c)
      finalized_blob := fun hf => absurd (show false = true from hf) Bool.false_ne_true
      timer_rec := fun htr => absurd (show false = true from htr) Bool.false_ne_true
      active_rec := fun ha => absurd (show false = true from ha) Bool.false_ne_true }
  | stopFlush frag =>
    simp only [applyEvent, ondataavailable]
    split
    case isTrue hlen =>
      exact {
        idle_duration := h.idle_duration
        paused_time := h.paused_time
        chunks_pos := fun c hc => by
          have h2 : c ∈ s.chunks ++ [frag] := hc
          rcases List.mem_append.mp h2 with hmem | hmem
          · exact h.chunks_pos c hmem
          · rw [List.mem_singleton.mp hmem]; omega
        finalized_blob := h.finalized_blob
        timer_rec := h.timer_rec
        active_rec := h.active_rec }
    case isFalse =>
      exact ⟨h.idle_duration, h.paused_time, h.chunks_pos, h.finalized_blob,
        h.timer_rec, h.active_rec⟩

theorem sessionInv_reachable {s : Session} (h : Reachable s) : SessionInv s := by
  induction h with
  | init =>
    exact ⟨by decide, by decide, by decide, by decide, by decide, by decide⟩
  | step hr he ih => exact sessionInv_step ih he

/-! ## Concrete scenarios used by witnesses and counterexamples -/

/-- A decoder that always fails, for concrete scenarios. -/
def failDecoder : Decoder := fun _ => none

/-- Start a fresh recording and receive one fragment: a reachable session in
the `recording` state holding one captured fragment. -/
def recordingOneFragment : Session :=
  runTrace [.start, .dataAvailable [5]] initialSession

/-- Record one fragment, then pause: a reachable `paused` session holding one
fragment, not yet finalized. -/
def pausedOneFragment : Session :=
  runTrace [.start, .dataAvailable [5], .pauseRec] initialSession

/-- Record one fragment, then delete while recording: a reachable `idle`
session whose un-awaited `mediaRecorder.stop()` has left one final device
flush pending. -/
def deletedSession : Session :=
  runTrace [.start, .dataAvailable [5], .delete] initialSession

/-- Record, pause, resume quickly, and only then have the deferred post-pause
finalization fire: a reachable `recording` session whose recorder is active
while `isFinalized` is already `true`. -/
def staleFinalizedRecording : Session :=
  runTrace [.start, .dataAvailable [7], .pauseRec, .resume,
    .pauseFinalizeTimeout failDecoder] initialSession

/-- Scenario B of the spec: record three ticks, pause, resume, record two
more ticks, pause again. -/
def scenarioB : List Event :=
  [.start, .dataAvailable [7], .tick, .tick, .tick, .pauseRec,
   .resume, .tick, .tick, .pauseRec]

/-! ## Duration-preservation helpers -/

theorem playAudio_duration (dec : Decoder) (s : Session) :
    (playAudio dec s).duration = s.duration := by
  simp only [playAudio]
  by_cases hcond : s.chunks ≠ [] ∧ (s.audioBlob = none ∨ s.audioUrl = none ∨ s.isFinalized = false)
  · rw [if_pos hcond]
    cases hurl : (finalizeRecording dec s).1.audioUrl with
    | some u => exact (finalizeRecording_preserves dec s).2.1
    | none => exact (finalizeRecording_preserves dec s).2.1
  · rw [if_neg hcond]
    cases hurl : s.audioUrl with
    | some u => rfl
    | none => rfl

theorem downloadRecording_duration (dec : Decoder) (s : Session) :
    ((downloadRecording dec s).1).duration = s.duration := by
  simp only [downloadRecording]
  by_cases hcond : s.chunks ≠ [] ∧ (s.audioBlob = none ∨ s.audioUrl = none ∨ s.isFinalized = false)
  case pos =>
    rw [if_pos hcond]
    have hdur := (finalizeRecording_preserves dec s).2.1
    cases hfin : finalizeRecording dec s with
    | mk s1 res =>
      rw [hfin] at hdur
      cases res with
      | some pair => exact hdur
      | none =>
        cases hblob : s1.audioBlob with
        | some b => exact hdur
        | none => exact hdur
  case neg =>
    rw [if_neg hcond]
    cases hblob : s.audioBlob with
    | some b => rfl
    | none => rfl

theorem pauseFinalizeFires_duration (dec : Decoder) (s : Session) :
    (pauseFinalizeFires dec s).duration = s.duration :=
  (finalizeRecording_preserves dec s).2.1

theorem startRecording_duration_paused {s : Session}
    (hinv : SessionInv s) (hp : s.state = .paused) :
    (startRecording s).duration = s.duration := by
  have hne : ¬ s.state = .idle := by rw [hp]; decide
  have hpt := hinv.paused_time (Or.inl hp)
  simp only [startRecording, if_neg hne]
  split
  case isTrue hgt => exact hpt
  case isFalse hle => rfl

/-! ## Claim theorems -/

/-- Counterexample to **C1** as stated: on a reachable paused session with one
captured fragment, the first `finalizeRecording` call returns an artifact
handle, while the second call — with no intervening capture activity —
returns `null`, not the identical handle. -/
theorem finalize_second_call_returns_null :
    traceEnabled initialSession [.start, .dataAvailable [5], .pauseRec] = true
    ∧ (finalizeRecording failDecoder pausedOneFragment).2 = some ([5], 0)
    ∧ (finalizeRecording failDecoder
        (finalizeRecording failDecoder pausedOneFragment).1).2 = none
    ∧ (finalizeRecording failDecoder pausedOneFragment).2
        ≠ (finalizeRecording failDecoder
            (finalizeRecording failDecoder pausedOneFragment).1).2 := by
  refine ⟨by decide, by decide, by decide, by decide⟩

/-- **C1 (amended)** — `finalizeRecording` is an idempotent no-op on its
second call: it returns `null` immediately when `capturedFragments` is empty
or `finalizationValid` is already true, and a second call with no intervening
capture activity performs no work, leaves the session (with its published
artifact) unchanged, and returns `null` rather than the artifact handle
again. -/
theorem finalize_idempotent_noop (dec : Decoder) (s : Session) :
    (s.isFinalized = true ∨ s.chunks = [] → finalizeRecording dec s = (s, none))
    ∧ finalizeRecording dec (finalizeRecording dec s).1
        = ((finalizeRecording dec s).1, none) := by
  have hstop : ∀ X : Session, X.isFinalized = true ∨ X.chunks = [] →
      finalizeRecording dec X = (X, none) := by
    intro X hX
    simp only [finalizeRecording, if_pos hX]
  refine ⟨hstop s, ?_⟩
  by_cases hc : s.isFinalized = true ∨ s.chunks = []
  · rw [hstop s hc]
    exact hstop s hc
  · have h1 : (finalizeRecording dec s).1.isFinalized = true := by
      simp only [finalizeRecording, if_neg hc]
    exact hstop _ (Or.inl h1)

/-- Witness for `finalize_idempotent_noop` at the empty initial session and
at a concrete one-fragment paused session. -/
theorem finalize_idempotent_noop_witness :
    (initialSession.isFinalized = true ∨ initialSession.chunks = [])
    ∧ finalizeRecording failDecoder initialSession = (initialSession, none)
    ∧ finalizeRecording failDecoder
        (finalizeRecording failDecoder pausedOneFragment).1
      = ((finalizeRecording failDecoder pausedOneFragment).1, none) :=
  ⟨Or.inr rfl,
    (finalize_idempotent_noop failDecoder initialSession).1 (Or.inr rfl),
    (finalize_idempotent_noop failDecoder pausedOneFragment).2⟩

/-- **C2** — Duration reconciliation is total: whenever a finalization reaches
the decode step (fragments exist and no valid finalization is present) and the
decoder fails on the merged fragment buffer, the authoritative duration is set
to the wall-clock `duration`, the finalization still completes
(`isFinalized` becomes true and an artifact is returned), and no error path
exists — `finalizeRecording` is a total function. -/
theorem reconcile_fallback_total (dec : Decoder) (s : Session)
    (hfin : s.isFinalized = false) (hch : s.chunks ≠ [])
    (hdec : dec (mergeChunks s.chunks) = none) :
    (finalizeRecording dec s).1.totalRecordingDuration = (s.duration : ℚ)
    ∧ (finalizeRecording dec s).1.isFinalized = true
    ∧ (finalizeRecording dec s).2 ≠ none := by
  have hcond : ¬ (s.isFinalized = true ∨ s.chunks = []) := by
    rintro (h1 | h2)
    · rw [hfin] at h1; cases h1
    · exact hch h2
  have hconv : convertToWav dec (mergeChunks s.chunks) = mergeChunks s.chunks := by
    simp [convertToWav, hdec]
  simp only [finalizeRecording, if_neg hcond, hconv, hdec]
  simp

/-- Witness for `reconcile_fallback_total`: a failing decoder on a reachable
one-fragment paused session. -/
theorem reconcile_fallback_total_witness :
    (pausedOneFragment.isFinalized = false
      ∧ pausedOneFragment.chunks ≠ []
      ∧ failDecoder (mergeChunks pausedOneFragment.chunks) = none)
    ∧ (finalizeRecording failDecoder pausedOneFragment).1.totalRecordingDuration
        = (pausedOneFragment.duration : ℚ)
    ∧ (finalizeRecording failDecoder pausedOneFragment).1.isFinalized = true
    ∧ (finalizeRecording failDecoder pausedOneFragment).2 ≠ none := by
  refine ⟨⟨by decide, by decide, rfl⟩, ?_⟩
  exact reconcile_fallback_total failDecoder pausedOneFragment
    (by decide) (by decide) rfl

/-- Counterexample to **C3** as stated: `staleFinalizedRecording` is reachable
(pause schedules a deferred finalization, the user resumes before it fires,
then it fires during the new segment), a fragment-append event is enabled
there, and appending the fragment leaves `finalizationValid` true instead of
setting it false. -/
theorem append_leaves_finalization_valid :
    traceEnabled initialSession
      [.start, .dataAvailable [7], .pauseRec, .resume,
        .pauseFinalizeTimeout failDecoder] = true
    ∧ enabled (.dataAvailable [8]) staleFinalizedRecording = true
    ∧ staleFinalizedRecording.isFinalized = true
    ∧ (ondataavailable [8] staleFinalizedRecording).chunks
        = staleFinalizedRecording.chunks ++ [[8]]
    ∧ (ondataavailable [8] staleFinalizedRecording).isFinalized = true := by
  refine ⟨by decide, by decide, by decide, by decide, by decide⟩

/-- **C3 (amended)** — The data-available handler itself never touches
`finalizationValid`: appending a fragment preserves `isFinalized` (so the
flag is false at an append only because starting any capture segment —
fresh or resumed — forces it false, not because the append clears it). -/
theorem append_preserves_isFinalized (frag : BlobBytes) (s : Session) :
    (ondataavailable frag s).isFinalized = s.isFinalized
    ∧ (frag.length > 0 → (ondataavailable frag s).chunks = s.chunks ++ [frag])
    ∧ (startRecording s).isFinalized = false := by
  refine ⟨?_, ?_, ?_⟩
  · simp only [ondataavailable]; split <;> rfl
  · intro hlen; simp only [ondataavailable, if_pos hlen]
  · simp only [startRecording]
    split <;> (split <;> rfl)

/-- Witness for `append_preserves_isFinalized` at a concrete fragment and the
initial session. -/
theorem append_preserves_isFinalized_witness :
    ([3] : BlobBytes).length > 0
    ∧ (ondataavailable [3] initialSession).chunks = initialSession.chunks ++ [[3]]
    ∧ (ondataavailable [3] initialSession).isFinalized = initialSession.isFinalized
    ∧ (startRecording initialSession).isFinalized = false :=
  ⟨by decide,
    (append_preserves_isFinalized [3] initialSession).2.1 (by decide),
    (append_preserves_isFinalized [3] initialSession).1,
    (append_preserves_isFinalized [3] initialSession).2.2⟩

/-- **C4** — `elapsedSeconds` is never reset by pause or resume: pausing
preserves `duration`, resuming from a reachable paused session preserves it,
any enabled event that changes it either increments it by one (a timer tick)
or zeroes it while entering `Idle`, and the spec's Scenario B (3 ticks,
pause, resume, 2 ticks, pause) accumulates to 5. -/
theorem elapsed_not_reset_by_pause_resume :
    (∀ s : Session, (applyEvent .pauseRec s).duration = s.duration)
    ∧ (∀ s : Session, Reachable s → s.state = .paused →
        (applyEvent .resume s).duration = s.duration)
    ∧ (∀ (s : Session) (e : Event), Reachable s → enabled e s = true →
        (applyEvent e s).duration ≠ s.duration →
        (applyEvent e s).duration = s.duration + 1
          ∨ ((applyEvent e s).duration = 0 ∧ (applyEvent e s).state = .idle))
    ∧ traceEnabled initialSession scenarioB = true
    ∧ (runTrace scenarioB initialSession).duration = 5
    ∧ (runTrace scenarioB initialSession).state = .paused := by
  refine ⟨fun s => rfl, ?_, ?_, by decide, by decide, by decide⟩
  · intro s hr hp
    exact startRecording_duration_paused (sessionInv_reachable hr) hp
  · intro s e hr he hne
    have hinv := sessionInv_reachable hr
    cases e with
    | start =>
      have hidle : s.state = .idle := by simpa [enabled] using he
      exfalso
      apply hne
      have hd0 : s.duration = 0 := hinv.idle_duration hidle
      simp only [applyEvent, startRecording, if_pos hidle]
      split
      case isTrue hpt => exact absurd (show (0 : Nat) > 0 from hpt) (by decide)
      case isFalse => exact hd0.symm
    | resume =>
      have hp : s.state = .paused := by simpa [enabled] using he
      exact absurd (startRecording_duration_paused hinv hp) hne
    | startFail => exact absurd rfl hne
    | permissionResult g => exact absurd rfl hne
    | dataAvailable frag =>
      exfalso
      apply hne
      simp only [applyEvent, ondataavailable]
      split <;> rfl
    | tick => exact Or.inl rfl
    | pauseRec => exact absurd rfl hne
    | pauseFinalizeTimeout dec => exact absurd (pauseFinalizeFires_duration dec s) hne
    | play dec => exact absurd (playAudio_duration dec s) hne
    | pausePlay => exact absurd rfl hne
    | playbackEnded => exact absurd rfl hne
    | playbackPoll t => exact absurd rfl hne
    | delete => exact Or.inr ⟨rfl, rfl⟩
    | download dec => exact absurd (downloadRecording_duration dec s) hne
    | downloadClearTimeout => exact Or.inr ⟨rfl, rfl⟩
    | stopFlush frag =>
      exfalso
      apply hne
      simp only [applyEvent, ondataavailable]
      split <;> rfl

/-- Witness for `elapsed_not_reset_by_pause_resume`: pause at the initial
session, resume at a reachable paused session, and a tick at a reachable
recording session. -/
theorem elapsed_not_reset_witness :
    (applyEvent .pauseRec initialSession).duration = initialSession.duration
    ∧ (applyEvent .resume pausedOneFragment).duration = pausedOneFragment.duration
    ∧ ((applyEvent .tick recordingOneFragment).duration
          = recordingOneFragment.duration + 1
        ∨ ((applyEvent .tick recordingOneFragment).duration = 0
            ∧ (applyEvent .tick recordingOneFragment).state = .idle)) :=
  ⟨elapsed_not_reset_by_pause_resume.1 initialSession,
    elapsed_not_reset_by_pause_resume.2.1 pausedOneFragment
      (runTrace_reachable Reachable.init _ (by decide)) (by decide),
    elapsed_not_reset_by_pause_resume.2.2.1 recordingOneFragment .tick
      (runTrace_reachable Reachable.init _ (by decide)) (by decide) (by decide)⟩

/-- Counterexample to **C7** as stated: `recordingOneFragment` is reachable
and in the `recording` state, yet invoking `downloadRecording` there is not
rejected — it finalizes the captured fragment, returns it, and moves the
session to `downloading`. -/
theorem download_in_recording_not_rejected :
    traceEnabled initialSession [.start, .dataAvailable [5]] = true
    ∧ recordingOneFragment.state = .recording
    ∧ ((downloadRecording failDecoder recordingOneFragment).1).state = .downloading
    ∧ (downloadRecording failDecoder recordingOneFragment).2 = some [5] := by
  refine ⟨by decide, by decide, by decide, by decide⟩

/-- **C7 (amended)** — The guard against downloading while recording lives in
the UI layer, not in the recorder: in every reachable `recording` session the
download control is disabled (the download event is not enabled) and no
enabled event moves the session to `downloading`; but the recorder's own
`downloadRecording` function, if invoked directly while recording with
captured fragments, does transition the session to `downloading`. -/
theorem download_requires_paused_or_playing (s : Session) (dec : Decoder)
    (hr : Reachable s) (hrec : s.state = .recording) :
    enabled (.download dec) s = false
    ∧ (∀ e : Event, enabled e s = true → (applyEvent e s).state ≠ .downloading)
    ∧ (s.chunks ≠ [] → ((downloadRecording dec s).1).state = .downloading) := by
  have hinv := sessionInv_reachable hr
  refine ⟨by simp [enabled, hrec], ?_, ?_⟩
  · intro e he2
    cases e with
    | start => simp [enabled, hrec] at he2
    | resume => simp [enabled, hrec] at he2
    | startFail => simp [enabled, hrec] at he2
    | permissionResult g =>
      intro hcontra
      have h2 : s.state = RecorderState.downloading := hcontra
      rw [hrec] at h2; cases h2
    | dataAvailable frag =>
      simp only [applyEvent, ondataavailable]
      split <;>
        (intro hcontra
         have h2 : s.state = RecorderState.downloading := hcontra
         rw [hrec] at h2; cases h2)
    | tick =>
      intro hcontra
      have h2 : s.state = RecorderState.downloading := hcontra
      rw [hrec] at h2; cases h2
    | pauseRec =>
      intro hcontra
      exact absurd (show RecorderState.paused = .downloading from hcontra) (by decide)
    | pauseFinalizeTimeout dec2 =>
      intro hcontra
      have h2 : (finalizeRecording dec2 s).1.state = RecorderState.downloading := hcontra
      rw [(finalizeRecording_preserves dec2 s).1, hrec] at h2
      cases h2
    | play dec2 => simp [enabled, hrec] at he2
    | pausePlay => simp [enabled, hrec] at he2
    | playbackEnded => simp [enabled, hrec] at he2
    | playbackPoll t => simp [enabled, hrec] at he2
    | delete =>
      intro hcontra
      exact absurd (show RecorderState.idle = .downloading from hcontra) (by decide)
    | download dec2 => simp [enabled, hrec] at he2
    | downloadClearTimeout =>
      intro hcontra
      exact absurd (show RecorderState.idle = .downloading from hcontra) (by decide)
    | stopFlush frag =>
      simp only [applyEvent, ondataavailable]
      split <;>
        (intro hcontra
         have h2 : s.state = RecorderState.downloading := hcontra
         rw [hrec] at h2; cases h2)
  · intro hch
    by_cases hcond : s.chunks ≠ []
        ∧ (s.audioBlob = none ∨ s.audioUrl = none ∨ s.isFinalized = false)
    · have hfin : s.isFinalized = false := by
        cases hf : s.isFinalized
        · rfl
        · obtain ⟨hb, hu⟩ := hinv.finalized_blob hf
          rcases hcond.2 with h2 | h2 | h2
          · exact absurd h2 hb
          · exact absurd h2 hu
          · rw [hf] at h2; cases h2
      have hcond2 : ¬ (s.isFinalized = true ∨ s.chunks = []) := by
        rintro (h1 | h2)
        · rw [hfin] at h1; cases h1
        · exact hch h2
      simp only [downloadRecording, if_pos hcond, finalizeRecording, if_neg hcond2]
    · have hfin : s.isFinalized = true := by
        cases hf : s.isFinalized
        · exact absurd ⟨hch, Or.inr (Or.inr hf)⟩ hcond
        · rfl
      obtain ⟨hb, hu⟩ := hinv.finalized_blob hfin
      simp only [downloadRecording, if_neg hcond]
      cases hblob : s.audioBlob with
      | none => exact absurd hblob hb
      | some b => rfl

/-- Witness for `download_requires_paused_or_playing` at the reachable
one-fragment recording session. -/
theorem download_requires_paused_or_playing_witness :
    recordingOneFragment.state = RecorderState.recording
    ∧ enabled (.download failDecoder) recordingOneFragment = false
    ∧ ((downloadRecording failDecoder recordingOneFragment).1).state
        = RecorderState.downloading :=
  ⟨by decide,
    (download_requires_paused_or_playing recordingOneFragment failDecoder
      (runTrace_reachable Reachable.init _ (by decide)) (by decide)).1,
    (download_requires_paused_or_playing recordingOneFragment failDecoder
      (runTrace_reachable Reachable.init _ (by decide)) (by decide)).2.2 (by decide)⟩

/-- **C8** (refuted — code bug) — `clearRecording` calls
`mediaRecorder.stop()` without awaiting its completion (unlike
`pauseRecording`, which does await it), so the final asynchronous
`dataavailable` flush of the recorder lands only after the synchronous
reset.
Deleting while recording therefore leaves the session in `Idle` with a clean
reset but one flush still pending; when that flush delivers a non-empty
fragment it is appended to `capturedFragments` while the state is already
`Idle`, refuting the claim that every sequence of transitions ending in
`Idle` leaves `capturedFragments` empty. -/
theorem delete_flush_fragment_in_idle :
    traceEnabled initialSession [.start, .dataAvailable [5], .delete] = true
    ∧ deletedSession.state = .idle
    ∧ deletedSession.chunks = []
    ∧ 0 < deletedSession.pendingStopFlushes
    ∧ enabled (.stopFlush [9]) deletedSession = true
    ∧ (applyEvent (.stopFlush [9]) deletedSession).state = .idle
    ∧ (applyEvent (.stopFlush [9]) deletedSession).chunks = [[9]]
    ∧ (applyEvent (.stopFlush [9]) deletedSession).chunks ≠ [] := by
  refine ⟨by decide, by decide, by decide, by decide, by decide, by decide,
    by decide, by decide⟩

/-- **C9** — When the WAV conversion step fails (the decoder rejects the
merged capture bytes), finalization does not abort: `convertToWav` returns
the original merged bytes unchanged, and `finalizeRecording` publishes those
raw merged bytes as the artifact (so the artifact is not guaranteed to be
WAV on this path). -/
theorem convert_failure_publishes_raw (dec : Decoder) (s : Session)
    (hfin : s.isFinalized = false) (hch : s.chunks ≠ [])
    (hdec : dec (mergeChunks s.chunks) = none) :
    convertToWav dec (mergeChunks s.chunks) = mergeChunks s.chunks
    ∧ (finalizeRecording dec s).1.audioBlob = some (mergeChunks s.chunks)
    ∧ (finalizeRecording dec s).2 = some (mergeChunks s.chunks, s.nextUrl) := by
  have hcond : ¬ (s.isFinalized = true ∨ s.chunks = []) := by
    rintro (h1 | h2)
    · rw [hfin] at h1; cases h1
    · exact hch h2
  have hconv : convertToWav dec (mergeChunks s.chunks) = mergeChunks s.chunks := by
    simp [convertToWav, hdec]
  refine ⟨hconv, ?_, ?_⟩ <;> simp only [finalizeRecording, if_neg hcond, hconv]

/-- Witness for `convert_failure_publishes_raw` at the reachable one-fragment
paused session with a failing decoder. -/
theorem convert_failure_publishes_raw_witness :
    (pausedOneFragment.isFinalized = false
      ∧ pausedOneFragment.chunks ≠ []
      ∧ failDecoder (mergeChunks pausedOneFragment.chunks) = none)
    ∧ convertToWav failDecoder (mergeChunks pausedOneFragment.chunks)
        = mergeChunks pausedOneFragment.chunks
    ∧ (finalizeRecording failDecoder pausedOneFragment).1.audioBlob
        = some (mergeChunks pausedOneFragment.chunks)
    ∧ (finalizeRecording failDecoder pausedOneFragment).2
        = some (mergeChunks pausedOneFragment.chunks, pausedOneFragment.nextUrl) := by
  refine ⟨⟨by decide, by decide, rfl⟩, ?_⟩
  exact convert_failure_publishes_raw failDecoder pausedOneFragment
    (by decide) (by decide) rfl

/-- **C10** — Zero-length fragments are never stored: every fragment held in
`capturedFragments` of any reachable session has size strictly greater
than zero. -/
theorem stored_fragments_positive (s : Session) (hr : Reachable s) :
    ∀ c ∈ s.chunks, 0 < c.length :=
  (sessionInv_reachable hr).chunks_pos

/-- Witness for `stored_fragments_positive` at the reachable one-fragment
recording session. -/
theorem stored_fragments_positive_witness : 0 < ([5] : BlobBytes).length :=
  stored_fragments_positive recordingOneFragment
    (runTrace_reachable Reachable.init _ (by decide)) [5] (by decide)

end AudioRecorder
